import Mathlib

/-!
Verification development for the roadrunner device-catalog pipeline.

The definitions below are a shallow embedding of the TypeScript sources:
the Supabase Edge Function `fetchDeviceCatalog` (categorisation, model
extraction, storage-variant extraction, the per-manufacturer fold into the
nested catalog, and the upload retry loop) and the Astro API route
`/api/device-catalog.json` (storage reader with local-file fallback).

Modelling conventions:
- JavaScript strings are Lean `String` (lists of characters); the helper
  functions work on `List Char` and are wrapped for `String`.
- Case mapping models `toLowerCase` on ASCII letters (`Char.toLower`);
  whitespace is the ASCII whitespace recognised by `Char.isWhitespace`.
  The JavaScript regular expressions `/\s*(TOK|...).*$/i` are modelled
  precisely for such inputs: the match starts at the leftmost token
  occurrence (extended left over whitespace) and removes everything from
  there to the end; since `.` does not cross a line terminator and `$`
  anchors at the very end, a token occurrence only matches when no line
  terminator follows the token.
- `undefined` JSON fields are `Option.none`; the JavaScript truthiness
  test on a string field treats the empty string like `undefined`
  (function `jsOr`).
- Fallible effects (device fetch, storage upload, storage download) are
  parameters of the pure state-transition functions.
-/

namespace DeviceCatalog

/-- Line terminators of the JavaScript regexp dot: LF, CR, LS, PS. -/
def isLineTerm (c : Char) : Bool :=
  c = '\n' || c = '\r' || c.toNat = 8232 || c.toNat = 8233

/-- Lowercase a list of characters, as `toLowerCase` does on ASCII. -/
def lowerL (l : List Char) : List Char :=
  l.map Char.toLower

/-- Drop trailing whitespace. Mirrors the right half of `trim` and the
backtracking `\s*` that precedes a token in the stripping regexps. -/
def trimR : List Char → List Char
  | [] => []
  | c :: t =>
    let r := trimR t
    if r.isEmpty ∧ c.isWhitespace then [] else c :: r

/-- JavaScript `trim`: drop leading and trailing whitespace. -/
def trimC (l : List Char) : List Char :=
  trimR (l.dropWhile Char.isWhitespace)

/-- String wrapper for `trimC`. -/
def strTrim (s : String) : String :=
  ⟨trimC s.data⟩

/-- Substring test: `sub` occurs contiguously inside `s`. -/
def hasSub (sub : List Char) : List Char → Bool
  | [] => sub.isEmpty
  | c :: t => sub.isPrefixOf (c :: t) || hasSub sub t

/-- Test whether one of the tokens matches case-insensitively at the head
of `s` in a way the regexp can complete: the rest of the match is `.*$`,
so no line terminator may follow the token. -/
def tokAt (toks : List (List Char)) (s : List Char) : Bool :=
  toks.any fun t =>
    (lowerL t).isPrefixOf (lowerL s) && (s.drop t.length).all (fun c => !isLineTerm c)

/-- Index of the leftmost token occurrence, computed structurally. -/
def findTok (toks : List (List Char)) : List Char → Option Nat
  | [] => none
  | c :: t => if tokAt toks (c :: t) then some 0 else (findTok toks t).map (· + 1)

/-- Embedding of one `model.replace(/\s*(T1|T2|...).*$/i, '')` step:
delete from the leftmost token occurrence to the end of the string,
together with the whitespace run immediately before the token. -/
def stripFrom (toks : List (List Char)) (s : List Char) : List Char :=
  match findTok toks s with
  | none => s
  | some i => trimR (s.take i)

/-- Storage-size token vocabulary, in the alternation order of the source. -/
def storageToks : List (List Char) :=
  ["128GB", "256GB", "512GB", "1TB", "64GB", "32GB", "16GB"].map String.data

/-- Color token vocabulary, in the alternation order of the source. -/
def colorToks : List (List Char) :=
  ["Black", "White", "Blue", "Red", "Gold", "Silver", "Space Gray", "Titanium"].map String.data

/-- Embedding of `extractModelName` from the Edge Function: strip a
case-insensitive leading brand prefix, strip from the first storage token,
strip from the first color token, trim, and fall back to the device name
when the result is empty. -/
def extractModelName (deviceName brandName : List Char) : List Char :=
  let m0 := deviceName
  let m1 :=
    if (lowerL brandName).isPrefixOf (lowerL m0) then trimC (m0.drop brandName.length) else m0
  let m2 := stripFrom storageToks m1
  let m3 := stripFrom colorToks m2
  let r := trimC m3
  if r.isEmpty then deviceName else r

/-- String wrapper for `extractModelName`. -/
def extractModelNameS (deviceName brandName : String) : String :=
  ⟨extractModelName deviceName.data brandName.data⟩

/-- Embedding of `categorizeDevice` from the Edge Function. -/
def categorizeDevice (deviceName : List Char) : String :=
  let name := lowerL deviceName
  if hasSub "tablet".data name || hasSub "ipad".data name || hasSub "tab".data name then
    "tablet"
  else if hasSub "watch".data name || hasSub "band".data name then
    "smartwatch"
  else
    "phone"

/-- String wrapper for `categorizeDevice`. -/
def categorizeDeviceS (deviceName : String) : String :=
  categorizeDevice deviceName.data

/-- Split a character list at commas, keeping empty segments, as the
JavaScript `split(",")` does. -/
def splitComma : List Char → List (List Char)
  | [] => [[]]
  | c :: t =>
    match splitComma t with
    | [] => [[c]]
    | h :: r => if c = ',' then [] :: h :: r else (c :: h) :: r

/-- Embedding of `extractStorageVariants`: absent or empty field gives no
variants; otherwise split at commas, trim, and keep non-empty tokens. -/
def extractStorageVariants (storage : Option String) : List String :=
  match storage with
  | none => []
  | some s =>
    if s = "" then []
    else (((splitComma s.data).map trimC).filter (fun v => !v.isEmpty)).map fun l => (⟨l⟩ : String)

/-- JavaScript `a || b` on an optional string field: `undefined` and the
empty string both fall through to the default. -/
def jsOr : Option String → String → String
  | some s, d => if s = "" then d else s
  | none, d => d

/-- Device record of the MobileAPI response, restricted to the fields the
pipeline reads. The nested `brand` object is represented by its `name`. -/
structure MobileAPIDevice where
  name : Option String
  brand : Option String
  manufacturer_name : Option String
  brand_name : Option String
  storage : Option String
deriving DecidableEq

/-- Model node of the catalog: an ordered variant list. -/
structure ModelEntry where
  variants : List String
deriving DecidableEq

/-- Brand node of the catalog: an insertion-ordered model mapping. -/
structure BrandEntry where
  models : List (String × ModelEntry)
deriving DecidableEq

/-- Category node of the catalog: an insertion-ordered brand mapping. -/
structure CategoryEntry where
  brands : List (String × BrandEntry)
deriving DecidableEq

/-- The catalog structure that the Edge Function builds and uploads. The
`metadata` block (timestamp, version, source) carries no logic and is
omitted; JavaScript objects become insertion-ordered association lists. -/
structure Catalog where
  categories : List (String × CategoryEntry)
deriving DecidableEq

/-- Lookup in an insertion-ordered association list. -/
def lookupKey {α : Type} : List (String × α) → String → Option α
  | [], _ => none
  | (k₀, v) :: t, k => if k₀ = k then some v else lookupKey t k

/-- Key-presence test, the embedding of `!object[key]` guards. -/
def hasKey {α : Type} (l : List (String × α)) (k : String) : Bool :=
  (lookupKey l k).isSome

/-- Create a key with a default value when it is absent; JavaScript object
insertion appends new keys at the end. -/
def ensureKey {α : Type} (l : List (String × α)) (k : String) (v : α) : List (String × α) :=
  if hasKey l k then l else l ++ [(k, v)]

/-- Apply a function to the value stored at a key. -/
def updateKey {α : Type} : List (String × α) → String → (α → α) → List (String × α)
  | [], _, _ => []
  | (k₀, v) :: t, k, f =>
    if k₀ = k then (k₀, f v) :: updateKey t k f else (k₀, v) :: updateKey t k f

/-- Create-if-absent followed by in-place modification, the shape of every
catalog mutation in the device loop. -/
def upsertKey {α : Type} (l : List (String × α)) (k : String) (v : α) (f : α → α) :
    List (String × α) :=
  updateKey (ensureKey l k v) k f

/-- Drill into the catalog at (category, brand, model), lazily creating
the intermediate nodes exactly as the device loop does, and transform the
variant list of the model node. -/
def updateModel (c : Catalog) (cat b m : String) (f : List String → List String) : Catalog :=
  ⟨upsertKey c.categories cat ⟨[]⟩ fun ce =>
    ⟨upsertKey ce.brands b ⟨[]⟩ fun be =>
      ⟨upsertKey be.models m ⟨[]⟩ fun me => ⟨f me.variants⟩⟩⟩⟩

/-- Append a variant unless it is already present (string equality). -/
def addVariant (vs : List String) (v : String) : List String :=
  if v ∈ vs then vs else vs ++ [v]

/-- Merge a list of storage variants into an existing variant list,
skipping duplicates, in order. -/
def mergeVariants (vs newVs : List String) : List String :=
  newVs.foldl addVariant vs

/-- Device-name resolution: `device.name || device.brand_name ||
"Unknown Device"`. -/
def resolveDeviceName (dev : MobileAPIDevice) : String :=
  jsOr dev.name (jsOr dev.brand_name "Unknown Device")

/-- Brand resolution: `device.brand?.name || device.manufacturer_name ||
device.brand_name || manufacturerName`. -/
def resolveBrand (dev : MobileAPIDevice) (manufacturerName : String) : String :=
  jsOr dev.brand (jsOr dev.manufacturer_name (jsOr dev.brand_name manufacturerName))

/-- Append the synthetic variant when it is non-empty and not already
present, the guarded push of the else branch of the device loop. -/
def pushNew (vs : List String) (v : String) : List String :=
  if v ≠ "" ∧ v ∉ vs then vs ++ [v] else vs

/-- Variant-list transformation performed for one device: merge the
extracted storage variants when there are any; otherwise append the
synthetic variant built from the model name and the raw storage field,
when that synthetic name is non-empty and new. -/
def deviceVarFn (dev : MobileAPIDevice) (modelName : String) (vs : List String) : List String :=
  if (extractStorageVariants dev.storage).isEmpty then
    pushNew vs (strTrim (modelName ++ " " ++ jsOr dev.storage ""))
  else
    mergeVariants vs (extractStorageVariants dev.storage)

/-- Processing of a single device inside the per-manufacturer loop:
normalize, then fold into the catalog. -/
def processDevice (manufacturerName : String) (c : Catalog) (dev : MobileAPIDevice) : Catalog :=
  let deviceName := resolveDeviceName dev
  let brandName := resolveBrand dev manufacturerName
  let category := categorizeDeviceS deviceName
  let modelName := extractModelNameS deviceName brandName
  updateModel c category brandName modelName (deviceVarFn dev modelName)

/-- Fold a device list of one manufacturer into the catalog. -/
def foldDevices (manufacturerName : String) (c : Catalog) (ds : List MobileAPIDevice) : Catalog :=
  ds.foldl (processDevice manufacturerName) c

/-- The catalog as initialized before the manufacturer loop. -/
def initCatalog : Catalog :=
  ⟨[("phone", ⟨[]⟩), ("tablet", ⟨[]⟩), ("smartwatch", ⟨[]⟩)]⟩

/-- Outcome of the device fetch for one manufacturer: a JSON array of
devices, a non-array response, or a thrown error. -/
inductive FetchResult where
  | ok (devices : List MobileAPIDevice)
  | nonArray
  | thrown (msg : String)
deriving DecidableEq

/-- Warning logged when a manufacturer has no devices or a non-array
response. -/
def warnNoDevices (manufacturerName : String) : String :=
  "No devices found for manufacturer: " ++ manufacturerName

/-- Warning logged when the device fetch for a manufacturer throws. -/
def warnFetchFailed (manufacturerName msg : String) : String :=
  "Failed to fetch devices for manufacturer " ++ manufacturerName ++ ": " ++ msg

/-- One iteration of the per-manufacturer loop over the running state
(catalog, warning log): a thrown fetch or an empty or non-array device
list logs a warning and leaves the catalog unchanged; otherwise the
devices are folded in. -/
def stepManufacturer (fetch : String → FetchResult) (s : Catalog × List String)
    (manufacturerName : String) : Catalog × List String :=
  match fetch manufacturerName with
  | .thrown e => (s.1, s.2 ++ [warnFetchFailed manufacturerName e])
  | .nonArray => (s.1, s.2 ++ [warnNoDevices manufacturerName])
  | .ok ds =>
    if ds.isEmpty then (s.1, s.2 ++ [warnNoDevices manufacturerName])
    else (foldDevices manufacturerName s.1 ds, s.2)

/-- The whole manufacturer loop, starting from the initialized catalog
and an empty warning log. -/
def processManufacturers (fetch : String → FetchResult) (mans : List String) :
    Catalog × List String :=
  mans.foldl (stepManufacturer fetch) (initCatalog, [])

/-- Catalog component of one loop iteration, used in proofs. -/
def stepCat (fetch : String → FetchResult) (c : Catalog) (manufacturerName : String) : Catalog :=
  match fetch manufacturerName with
  | .ok ds => if ds.isEmpty then c else foldDevices manufacturerName c ds
  | _ => c

/-- Catalog component of the manufacturer loop. -/
def buildCatalog (fetch : String → FetchResult) (mans : List String) : Catalog :=
  mans.foldl (stepCat fetch) initCatalog

/-- Manufacturer cap of the loop (`maxManufacturers` in the source). -/
def maxManufacturers : Nat := 50

/-- Retry cap of the upload loop (`maxRetries` in the source). -/
def maxRetries : Nat := 3

/-- Upload options passed to `storage.upload` in the source. -/
structure UploadOptions where
  contentType : String
  upsert : Bool
deriving DecidableEq

/-- The concrete options of the upload call: JSON content type and
overwrite-if-exists semantics. -/
def uploadOptions : UploadOptions :=
  ⟨"application/json", true⟩

/-- The upload retry loop. `attempts i` is the result of the i-th upload
attempt (`none` is success, `some e` an error with message `e`). The
result is the final `uploadError`, the number of attempts made, and the
list of sleeps (in milliseconds) performed before retries. The `fuel`
argument makes the `while retryCount <= maxRetries` loop structural; it
is called with `fuel = maxRetries + 1 - retryCount`, so reaching fuel 0
coincides with the loop condition turning false. -/
def uploadGo (attempts : Nat → Option String) (err : Option String) (rc fuel : Nat) :
    Option String × Nat × List Nat :=
  match fuel with
  | 0 => (err, 0, [])
  | fuel + 1 =>
    if rc ≤ maxRetries then
      let ds : List Nat := if 0 < rc then [1000] else []
      match attempts rc with
      | none => (none, 1, ds)
      | some e =>
        let r := uploadGo attempts (some e) (rc + 1) fuel
        (r.1, r.2.1 + 1, ds ++ r.2.2)
    else (err, 0, [])

/-- The upload step as invoked by the Edge Function. -/
def uploadResult (attempts : Nat → Option String) : Option String × Nat × List Nat :=
  uploadGo attempts none 0 (maxRetries + 1)

/-- Fatal error message produced when the retries are exhausted. -/
def uploadErrorMsg (e : String) : String :=
  "Failed to upload catalog to Storage after " ++ toString maxRetries ++ " retries: " ++ e

/-- Result of the manufacturers-list fetch: an array, a non-array
response, or a thrown error. -/
inductive ManufacturersResult where
  | ok (mans : List String)
  | nonArray
  | thrown (msg : String)
deriving DecidableEq

/-- Terminal state of one Edge Function invocation: `success` carries the
uploaded catalog, `failure` the error message of the 500 response. -/
inductive ServeOutcome where
  | success (uploaded : Catalog)
  | failure (msg : String)
deriving DecidableEq

/-- Error message thrown when the manufacturers response is unusable. -/
def noManufacturersMsg : String :=
  "No manufacturers found or invalid response format"

/-- The serve handler of the Edge Function, abstracted over the three
effectful boundaries: manufacturer fetch, per-manufacturer device fetch,
and upload attempts. A thrown or non-array or empty manufacturers
response is fatal; the manufacturer loop runs over the first
`maxManufacturers` entries; exhausted upload retries are fatal with the
last upload error embedded in the message. -/
def serveRun (mres : ManufacturersResult) (fetch : String → FetchResult)
    (attempts : Nat → Option String) : ServeOutcome :=
  match mres with
  | .thrown e => .failure e
  | .nonArray => .failure noManufacturersMsg
  | .ok mans =>
    if mans.isEmpty then .failure noManufacturersMsg
    else
      let c := (processManufacturers fetch (mans.take maxManufacturers)).1
      match (uploadResult attempts).1 with
      | none => .success c
      | some e => .failure (uploadErrorMsg e)

/-- Variant-list lookup at a (category, brand, model) path. -/
def lookupVariants (c : Catalog) (cat b m : String) : Option (List String) :=
  (lookupKey c.categories cat).bind fun ce =>
    (lookupKey ce.brands b).bind fun be =>
      (lookupKey be.models m).map ModelEntry.variants

/-! ## The API-route catalog reader (src/unnamed/part_002) -/

/-- Outcome of the storage attempt of the API route: a successfully
downloaded and parsed catalog body, an error result (covering both a
returned error and a missing data object), or an exception thrown during
download, body read, or JSON parsing. -/
inductive StorageOutcome where
  | ok (catalog : String)
  | errRes (msg : String)
  | exn (msg : String)
deriving DecidableEq

/-- Outcome of the local-file fallback: a successfully read and parsed
snapshot body, or an exception from the file read or the parse. -/
inductive LocalOutcome where
  | ok (catalog : String)
  | exn (msg : String)
deriving DecidableEq

/-- Response of the API route, restricted to the observable fields the
specification talks about: status, body, the numeric `max-age` of the
`Cache-Control` header, and the `X-Catalog-Source` header. -/
structure RouteResponse where
  status : Nat
  body : String
  cacheMaxAge : Option Nat
  catalogSource : Option String
deriving DecidableEq

/-- Body of the 500 response when both sources fail. -/
def bothFailedBody : String :=
  "Failed to load device catalog: Both Supabase Storage and local file failed. Please ensure the catalogs bucket exists in Supabase Storage or the local file is available."

/-- The GET handler of `/api/device-catalog.json`: serve the storage
catalog with a 1-hour cache directive, fall back to the local snapshot
with a 5-minute cache directive and the fallback source marker, and
report a 500 naming both sources when the fallback fails too. -/
def deviceCatalogGET (st : StorageOutcome) (loc : LocalOutcome) : RouteResponse :=
  match st with
  | .ok cat => ⟨200, cat, some 3600, some "supabase-storage"⟩
  | _ =>
    match loc with
    | .ok cat => ⟨200, cat, some 300, some "local-fallback"⟩
    | .exn _ => ⟨500, bothFailedBody, none, none⟩

/-! ## Claim-side definitions

The definitions in this section follow the words of the specification
rather than the source; each is compared with the corresponding embedded
definition in the theorems below. -/

/-- Modelled from the claim wording for extractModelName: strip a
trailing storage token, then a trailing color token, each only when the
token stands at the very end of the string (case-insensitively), then
trim, falling back to the device name when empty. -/
def stripTrailingTok (toks : List (List Char)) (s : List Char) : List Char :=
  match toks.find? (fun t => (lowerL t).isSuffixOf (lowerL s)) with
  | none => s
  | some t => s.take (s.length - t.length)

/-- Model extraction as the claim words it: brand prefix strip, then
strip of a storage token and of a color token present at the end. -/
def extractModelNameTrailing (deviceName brandName : List Char) : List Char :=
  let m0 := deviceName
  let m1 :=
    if (lowerL brandName).isPrefixOf (lowerL m0) then trimC (m0.drop brandName.length) else m0
  let m2 := stripTrailingTok storageToks m1
  let m3 := stripTrailingTok colorToks m2
  let r := trimC m3
  if r.isEmpty then deviceName else r

/-- String wrapper for `extractModelNameTrailing`. -/
def extractModelNameTrailingS (deviceName brandName : String) : String :=
  ⟨extractModelNameTrailing deviceName.data brandName.data⟩

/-- Index of the leftmost token occurrence, characterised as the minimum
over all positions rather than by structural recursion. -/
def firstTokIdx (toks : List (List Char)) (s : List Char) : Option Nat :=
  (List.range (s.length + 1)).find? fun i => tokAt toks (s.drop i)

/-- Amended reading of the stripping step: delete everything from the
first token occurrence, wherever it is, to the end. -/
def stripFromFirst (toks : List (List Char)) (s : List Char) : List Char :=
  match firstTokIdx toks s with
  | none => s
  | some i => trimR (s.take i)

/-- Amended model extraction: brand prefix strip, then deletion from the
first storage-token occurrence and from the first color-token occurrence
(the occurrence may be anywhere in the string, even inside a word). -/
def extractModelNameFirstOcc (deviceName brandName : List Char) : List Char :=
  let m0 := deviceName
  let m1 :=
    if (lowerL brandName).isPrefixOf (lowerL m0) then trimC (m0.drop brandName.length) else m0
  let m2 := stripFromFirst storageToks m1
  let m3 := stripFromFirst colorToks m2
  let r := trimC m3
  if r.isEmpty then deviceName else r

/-- String wrapper for `extractModelNameFirstOcc`. -/
def extractModelNameFirstOccS (deviceName brandName : String) : String :=
  ⟨extractModelNameFirstOcc deviceName.data brandName.data⟩

/-- Case-insensitive substring test on strings, as the specification
words the categorisation rule. -/
def ciContains (s t : String) : Bool :=
  hasSub (lowerL t.data) (lowerL s.data)

/-- Categorisation as the specification words it: case-insensitive
substring match, tablet check before watch check before the default. -/
def categorizeClaim (deviceName : String) : String :=
  if ciContains deviceName "tablet" || ciContains deviceName "ipad" || ciContains deviceName "tab" then
    "tablet"
  else if ciContains deviceName "watch" || ciContains deviceName "band" then
    "smartwatch"
  else
    "phone"

/-- Brand resolution as claim C8 words it: the first defined of the four
candidates, regardless of emptiness. -/
def firstDefined : List (Option String) → String → String
  | [], d => d
  | some s :: _, _ => s
  | none :: t, d => firstDefined t d

/-- Brand resolution claim-side: first defined of nested brand name,
manufacturer name, flat brand name, then the current manufacturer. -/
def claimBrand (dev : MobileAPIDevice) (manufacturerName : String) : String :=
  firstDefined [dev.brand, dev.manufacturer_name, dev.brand_name] manufacturerName

/-- Amended brand resolution: first candidate that is defined and
non-empty, then the current manufacturer as last resort. -/
def firstTruthy : List (Option String) → String → String
  | [], d => d
  | some s :: t, d => if s = "" then firstTruthy t d else s
  | none :: t, d => firstTruthy t d

/-- Invariant: every variant list reachable in the catalog is
duplicate-free. -/
def NodupInv (c : Catalog) : Prop :=
  ∀ cat b m vs, lookupVariants c cat b m = some vs → vs.Nodup

/-- Catalog extension: every variant list present in the first catalog is
present in the second with the same prefix, extended only at the tail.
This is the formal reading of first-seen variant order. -/
def CatExt (c c' : Catalog) : Prop :=
  ∀ cat b m vs, lookupVariants c cat b m = some vs →
    ∃ t, lookupVariants c' cat b m = some (vs ++ t)

/-- The device `dev`, processed under manufacturer `man`, produces the
normalized tuple (cat, b, m, v): the resolved category, brand and model
match, and `v` is either one of the extracted storage variants or the
non-empty synthetic variant of the no-storage branch. -/
def producesVariant (man : String) (dev : MobileAPIDevice) (cat b m v : String) : Prop :=
  cat = categorizeDeviceS (resolveDeviceName dev) ∧
  b = resolveBrand dev man ∧
  m = extractModelNameS (resolveDeviceName dev) (resolveBrand dev man) ∧
  ((extractStorageVariants dev.storage = [] ∧
      v = strTrim (m ++ " " ++ jsOr dev.storage "") ∧ v ≠ "") ∨
    v ∈ extractStorageVariants dev.storage)

instance producesVariantDecidable (man : String) (dev : MobileAPIDevice)
    (cat b m v : String) : Decidable (producesVariant man dev cat b m v) := by
  unfold producesVariant
  infer_instance

/-- Character-level test for a non-whitespace character, used to state
the amended non-empty-variants invariant. -/
def hasNonWs (l : List Char) : Bool :=
  l.any fun c => !c.isWhitespace

/-- Invariant: every variant list reachable in the catalog is non-empty. -/
def NonEmptyInv (c : Catalog) : Prop :=
  ∀ cat b m vs, lookupVariants c cat b m = some vs → vs ≠ []

/-! ## Association-list lemmas -/

theorem lookupKey_append {α : Type} (l₁ l₂ : List (String × α)) (k : String) :
    lookupKey (l₁ ++ l₂) k = ((lookupKey l₁ k).orElse fun _ => lookupKey l₂ k) := by
  induction l₁ with
  | nil => simp [lookupKey, Option.orElse]
  | cons p t ih =>
    obtain ⟨k₀, v⟩ := p
    by_cases h : k₀ = k <;> simp [lookupKey, h, ih, Option.orElse]

theorem lookupKey_updateKey {α : Type} (l : List (String × α)) (k : String) (f : α → α)
    (k' : String) :
    lookupKey (updateKey l k f) k' =
      if k' = k then (lookupKey l k).map f else lookupKey l k' := by
  induction l with
  | nil => simp [lookupKey, updateKey]
  | cons p t ih =>
    obtain ⟨k₀, v⟩ := p
    by_cases h1 : k₀ = k <;> by_cases h2 : k₀ = k'
    · subst h1; subst h2
      simp [updateKey, lookupKey]
    · subst h1
      have h2' : ¬ (k' = k₀) := fun h => h2 h.symm
      simp [updateKey, lookupKey, h2, h2', ih]
    · subst h2
      simp [updateKey, lookupKey, h1]
    · have h2' : ¬ (k' = k₀) := fun h => h2 h.symm
      simp [updateKey, lookupKey, h1, h2, ih]

theorem lookupKey_ensureKey_self {α : Type} (l : List (String × α)) (k : String) (v : α) :
    lookupKey (ensureKey l k v) k = some ((lookupKey l k).getD v) := by
  unfold ensureKey hasKey
  cases h : lookupKey l k with
  | some w => simp [h]
  | none => simp [h, lookupKey_append, lookupKey, Option.orElse]

theorem lookupKey_ensureKey_ne {α : Type} (l : List (String × α)) (k : String) (v : α)
    (k' : String) (hne : k' ≠ k) :
    lookupKey (ensureKey l k v) k' = lookupKey l k' := by
  unfold ensureKey hasKey
  cases h : lookupKey l k with
  | some w => simp [h]
  | none =>
    cases h' : lookupKey l k' <;>
      simp [h, h', lookupKey_append, lookupKey, Ne.symm hne, Option.orElse]

theorem lookupKey_upsertKey_self {α : Type} (l : List (String × α)) (k : String) (v : α)
    (f : α → α) :
    lookupKey (upsertKey l k v f) k = some (f ((lookupKey l k).getD v)) := by
  unfold upsertKey
  rw [lookupKey_updateKey, if_pos rfl, lookupKey_ensureKey_self]
  rfl

theorem lookupKey_upsertKey_ne {α : Type} (l : List (String × α)) (k : String) (v : α)
    (f : α → α) (k' : String) (hne : k' ≠ k) :
    lookupKey (upsertKey l k v f) k' = lookupKey l k' := by
  unfold upsertKey
  rw [lookupKey_updateKey, if_neg hne, lookupKey_ensureKey_ne _ _ _ _ hne]

/-- Master lemma: how one catalog mutation step changes the variant list
at every path. The mutated path gets `f` applied to its previous variant
list (empty when the path was absent); every other path is untouched. -/
theorem lookupVariants_updateModel (c : Catalog) (cat b m : String)
    (f : List String → List String) (cat' b' m' : String) :
    lookupVariants (updateModel c cat b m f) cat' b' m' =
      if cat' = cat ∧ b' = b ∧ m' = m then
        some (f ((lookupVariants c cat b m).getD []))
      else lookupVariants c cat' b' m' := by
  unfold updateModel lookupVariants
  by_cases hc : cat' = cat
  · subst hc
    rw [lookupKey_upsertKey_self]
    simp only [Option.some_bind]
    by_cases hb : b' = b
    · subst hb
      rw [lookupKey_upsertKey_self]
      simp only [Option.some_bind]
      by_cases hm : m' = m
      · subst hm
        rw [lookupKey_upsertKey_self]
        cases hce : lookupKey c.categories cat' with
        | none => simp [hce, lookupKey]
        | some ce =>
          cases hbe : lookupKey ce.brands b' with
          | none => simp [hce, hbe, lookupKey]
          | some be =>
            cases hme : lookupKey be.models m' with
            | none => simp [hce, hbe, hme]
            | some me => simp [hce, hbe, hme]
      · rw [lookupKey_upsertKey_ne _ _ _ _ _ hm]
        cases hce : lookupKey c.categories cat' with
        | none => simp [hce, lookupKey, hm]
        | some ce =>
          cases hbe : lookupKey ce.brands b' with
          | none => simp [hce, hbe, lookupKey, hm]
          | some be => simp [hce, hbe, hm]
    · rw [lookupKey_upsertKey_ne _ _ _ _ _ hb]
      cases hce : lookupKey c.categories cat' with
      | none => simp [hce, lookupKey, hb]
      | some ce => simp [hce, hb]
  · rw [lookupKey_upsertKey_ne _ _ _ _ _ hc]
    simp [hc]

/-! ## Variant-list lemmas -/

theorem addVariant_nodup (vs : List String) (v : String) (h : vs.Nodup) :
    (addVariant vs v).Nodup := by
  unfold addVariant
  by_cases hv : v ∈ vs
  · simpa [hv]
  · simp [hv, List.nodup_append, h]

theorem mergeVariants_nodup (l vs : List String) (h : vs.Nodup) :
    (mergeVariants vs l).Nodup := by
  induction l generalizing vs with
  | nil => simpa [mergeVariants]
  | cons x t ih =>
    simpa [mergeVariants] using ih (addVariant vs x) (addVariant_nodup vs x h)

theorem pushNew_nodup (vs : List String) (v : String) (h : vs.Nodup) :
    (pushNew vs v).Nodup := by
  unfold pushNew
  split
  · next hcond => simp [List.nodup_append, h, hcond.2]
  · exact h

theorem deviceVarFn_nodup (dev : MobileAPIDevice) (m : String) (vs : List String)
    (h : vs.Nodup) : (deviceVarFn dev m vs).Nodup := by
  unfold deviceVarFn
  split
  · exact pushNew_nodup vs _ h
  · exact mergeVariants_nodup _ _ h

theorem addVariant_append (vs : List String) (v : String) :
    ∃ t, addVariant vs v = vs ++ t := by
  unfold addVariant
  by_cases hv : v ∈ vs
  · exact ⟨[], by simp [hv]⟩
  · exact ⟨[v], by simp [hv]⟩

theorem mergeVariants_append (l vs : List String) :
    ∃ t, mergeVariants vs l = vs ++ t := by
  induction l generalizing vs with
  | nil => exact ⟨[], by simp [mergeVariants]⟩
  | cons x t ih =>
    obtain ⟨t₁, ht₁⟩ := addVariant_append vs x
    obtain ⟨t₂, ht₂⟩ := ih (addVariant vs x)
    exact ⟨t₁ ++ t₂, by simp [mergeVariants] at ht₂ ⊢; rw [ht₂, ht₁, List.append_assoc]⟩

theorem pushNew_append (vs : List String) (v : String) :
    ∃ t, pushNew vs v = vs ++ t := by
  unfold pushNew
  split
  · exact ⟨_, rfl⟩
  · exact ⟨[], by simp⟩

theorem deviceVarFn_append (dev : MobileAPIDevice) (m : String) (vs : List String) :
    ∃ t, deviceVarFn dev m vs = vs ++ t := by
  unfold deviceVarFn
  split
  · exact pushNew_append vs _
  · exact mergeVariants_append _ vs

theorem mem_addVariant_left (vs : List String) (v w : String) (h : w ∈ vs) :
    w ∈ addVariant vs v := by
  obtain ⟨t, ht⟩ := addVariant_append vs v
  rw [ht]; exact List.mem_append_left _ h

theorem mem_addVariant_self (vs : List String) (v : String) : v ∈ addVariant vs v := by
  unfold addVariant
  by_cases hv : v ∈ vs <;> simp [hv]

theorem mem_mergeVariants_left (l vs : List String) (w : String) (h : w ∈ vs) :
    w ∈ mergeVariants vs l := by
  obtain ⟨t, ht⟩ := mergeVariants_append l vs
  rw [ht]; exact List.mem_append_left _ h

theorem mem_mergeVariants_of_mem (l vs : List String) (v : String) (h : v ∈ l) :
    v ∈ mergeVariants vs l := by
  induction l generalizing vs with
  | nil => cases h
  | cons x t ih =>
    rcases List.mem_cons.mp h with rfl | h'
    · exact mem_mergeVariants_left t _ v (mem_addVariant_self vs v)
    · exact ih (addVariant vs x) h'

theorem mergeVariants_eq_of_subset (l vs : List String) (h : ∀ x ∈ l, x ∈ vs) :
    mergeVariants vs l = vs := by
  induction l generalizing vs with
  | nil => rfl
  | cons x t ih =>
    have hx : x ∈ vs := h x (by simp)
    have : addVariant vs x = vs := by simp [addVariant, hx]
    simp only [mergeVariants, List.foldl_cons] at ih ⊢
    rw [this, ih vs fun y hy => h y (by simp [hy])]

theorem mem_pushNew_self (vs : List String) (v : String) (hv : v ≠ "") :
    v ∈ pushNew vs v := by
  unfold pushNew
  split
  · simp
  · next hcond =>
    simp only [ne_eq, not_and, not_not] at hcond
    exact hcond hv

theorem pushNew_idem (vs : List String) (v : String) :
    pushNew (pushNew vs v) v = pushNew vs v := by
  by_cases hv : v = ""
  · subst hv
    simp [pushNew]
  · have hmem : v ∈ pushNew vs v := mem_pushNew_self vs v hv
    unfold pushNew at hmem ⊢
    simp [hmem]

theorem deviceVarFn_idem (dev : MobileAPIDevice) (m : String) (vs : List String) :
    deviceVarFn dev m (deviceVarFn dev m vs) = deviceVarFn dev m vs := by
  unfold deviceVarFn
  split
  · exact pushNew_idem vs _
  · apply mergeVariants_eq_of_subset
    intro x hx
    exact mem_mergeVariants_of_mem _ vs x hx

/-! ## Catalog invariant preservation -/

theorem catExt_refl (c : Catalog) : CatExt c c :=
  fun cat b m vs h => ⟨[], by simpa⟩

theorem catExt_trans {c₁ c₂ c₃ : Catalog} (h1 : CatExt c₁ c₂) (h2 : CatExt c₂ c₃) :
    CatExt c₁ c₃ := by
  intro cat b m vs h
  obtain ⟨t₁, ht₁⟩ := h1 cat b m vs h
  obtain ⟨t₂, ht₂⟩ := h2 cat b m _ ht₁
  exact ⟨t₁ ++ t₂, by rw [ht₂, List.append_assoc]⟩

theorem nodupInv_initCatalog : NodupInv initCatalog := by
  intro cat b m vs h
  unfold lookupVariants initCatalog at h
  by_cases h1 : "phone" = cat <;> by_cases h2 : "tablet" = cat <;>
    by_cases h3 : "smartwatch" = cat <;> simp [lookupKey, h1, h2, h3] at h

theorem nodupInv_processDevice (man : String) (c : Catalog) (dev : MobileAPIDevice)
    (h : NodupInv c) : NodupInv (processDevice man c dev) := by
  intro cat b m vs hv
  unfold processDevice at hv
  rw [lookupVariants_updateModel] at hv
  split at hv
  · cases hv
    apply deviceVarFn_nodup
    cases hw : lookupVariants c (categorizeDeviceS (resolveDeviceName dev))
        (resolveBrand dev man)
        (extractModelNameS (resolveDeviceName dev) (resolveBrand dev man)) with
    | none => simp [hw]
    | some w => simpa [hw] using h _ _ _ w hw
  · exact h cat b m vs hv

theorem catExt_processDevice (man : String) (c : Catalog) (dev : MobileAPIDevice) :
    CatExt c (processDevice man c dev) := by
  intro cat b m vs hv
  unfold processDevice
  rw [lookupVariants_updateModel]
  split
  · next hcond =>
    obtain ⟨hcat, hb, hm⟩ := hcond
    subst hcat
    subst hb
    subst hm
    rw [hv]
    simpa using deviceVarFn_append dev _ vs
  · exact ⟨[], by simpa using hv⟩

theorem nodupInv_foldDevices (man : String) (c : Catalog) (ds : List MobileAPIDevice)
    (h : NodupInv c) : NodupInv (foldDevices man c ds) := by
  induction ds generalizing c with
  | nil => simpa [foldDevices]
  | cons d t ih =>
    simpa [foldDevices] using ih (processDevice man c d) (nodupInv_processDevice man c d h)

theorem catExt_foldDevices (man : String) (c : Catalog) (ds : List MobileAPIDevice) :
    CatExt c (foldDevices man c ds) := by
  induction ds generalizing c with
  | nil => exact catExt_refl c
  | cons d t ih =>
    exact catExt_trans (catExt_processDevice man c d) (ih (processDevice man c d))

theorem nodupInv_stepCat (fetch : String → FetchResult) (c : Catalog) (man : String)
    (h : NodupInv c) : NodupInv (stepCat fetch c man) := by
  unfold stepCat
  split
  · split
    · exact h
    · exact nodupInv_foldDevices man c _ h
  · exact h

theorem catExt_stepCat (fetch : String → FetchResult) (c : Catalog) (man : String) :
    CatExt c (stepCat fetch c man) := by
  unfold stepCat
  split
  · split
    · exact catExt_refl c
    · exact catExt_foldDevices man c _
  · exact catExt_refl c

theorem nodupInv_foldMans (fetch : String → FetchResult) (mans : List String) (c : Catalog)
    (h : NodupInv c) : NodupInv (mans.foldl (stepCat fetch) c) := by
  induction mans generalizing c with
  | nil => simpa
  | cons man t ih =>
    simpa using ih (stepCat fetch c man) (nodupInv_stepCat fetch c man h)

theorem catExt_foldMans (fetch : String → FetchResult) (mans : List String) (c : Catalog) :
    CatExt c (mans.foldl (stepCat fetch) c) := by
  induction mans generalizing c with
  | nil => exact catExt_refl c
  | cons man t ih =>
    exact catExt_trans (catExt_stepCat fetch c man) (ih (stepCat fetch c man))

theorem nodupInv_buildCatalog (fetch : String → FetchResult) (mans : List String) :
    NodupInv (buildCatalog fetch mans) :=
  nodupInv_foldMans fetch mans initCatalog nodupInv_initCatalog

/-- Catalog component of the paired manufacturer fold coincides with the
catalog-only fold. -/
theorem fst_foldMans (fetch : String → FetchResult) (mans : List String)
    (s : Catalog × List String) :
    (mans.foldl (stepManufacturer fetch) s).1 = mans.foldl (stepCat fetch) s.1 := by
  induction mans generalizing s with
  | nil => rfl
  | cons man t ih =>
    have hstep : (stepManufacturer fetch s man).1 = stepCat fetch s.1 man := by
      unfold stepManufacturer stepCat
      cases fetch man with
      | ok ds => by_cases hds : ds.isEmpty <;> simp [hds]
      | nonArray => rfl
      | thrown e => rfl
    simp only [List.foldl_cons, ih, hstep]

theorem fst_processManufacturers (fetch : String → FetchResult) (mans : List String) :
    (processManufacturers fetch mans).1 = buildCatalog fetch mans :=
  fst_foldMans fetch mans (initCatalog, [])

/-! ## Producing a variant puts it into the catalog -/

theorem mem_deviceVarFn_of_produces (man : String) (dev : MobileAPIDevice)
    (cat b m v : String) (h : producesVariant man dev cat b m v) (w : List String) :
    v ∈ deviceVarFn dev m w := by
  obtain ⟨-, -, -, hv⟩ := h
  unfold deviceVarFn
  rcases hv with ⟨hsv, hveq, hvne⟩ | hmem
  · rw [hsv]
    simpa [← hveq] using mem_pushNew_self w v hvne
  · have hsv : (extractStorageVariants dev.storage).isEmpty = false := by
      cases hs : extractStorageVariants dev.storage with
      | nil => rw [hs] at hmem; cases hmem
      | cons x t => simp
    rw [hsv]
    simpa using mem_mergeVariants_of_mem _ w v hmem

theorem lookupVariants_processDevice_self (man : String) (c : Catalog)
    (dev : MobileAPIDevice) :
    lookupVariants (processDevice man c dev) (categorizeDeviceS (resolveDeviceName dev))
        (resolveBrand dev man)
        (extractModelNameS (resolveDeviceName dev) (resolveBrand dev man)) =
      some (deviceVarFn dev (extractModelNameS (resolveDeviceName dev) (resolveBrand dev man))
        ((lookupVariants c (categorizeDeviceS (resolveDeviceName dev)) (resolveBrand dev man)
            (extractModelNameS (resolveDeviceName dev) (resolveBrand dev man))).getD [])) := by
  unfold processDevice
  rw [lookupVariants_updateModel]
  simp

theorem mem_buildCatalog_of_produces (fetch : String → FetchResult) (mans : List String)
    (man : String) (ds : List MobileAPIDevice) (dev : MobileAPIDevice) (cat b m v : String)
    (hman : man ∈ mans) (hfetch : fetch man = FetchResult.ok ds) (hdev : dev ∈ ds)
    (hprod : producesVariant man dev cat b m v) :
    ∃ vs, lookupVariants (buildCatalog fetch mans) cat b m = some vs ∧ v ∈ vs := by
  obtain ⟨l₁, l₂, rfl⟩ := List.append_of_mem hman
  obtain ⟨d₁, d₂, rfl⟩ := List.append_of_mem hdev
  have hcat := hprod.1
  have hb := hprod.2.1
  have hm := hprod.2.2.1
  unfold buildCatalog
  rw [List.foldl_append, List.foldl_cons]
  have hstep : stepCat fetch (List.foldl (stepCat fetch) initCatalog l₁) man =
      foldDevices man (List.foldl (stepCat fetch) initCatalog l₁) (d₁ ++ dev :: d₂) := by
    unfold stepCat
    rw [hfetch]
    simp
  rw [hstep]
  unfold foldDevices
  rw [List.foldl_append, List.foldl_cons]
  set c₂ := List.foldl (processDevice man) (List.foldl (stepCat fetch) initCatalog l₁) d₁
  have hself := lookupVariants_processDevice_self man c₂ dev
  have hmem : v ∈ deviceVarFn dev
      (extractModelNameS (resolveDeviceName dev) (resolveBrand dev man))
      ((lookupVariants c₂ (categorizeDeviceS (resolveDeviceName dev)) (resolveBrand dev man)
          (extractModelNameS (resolveDeviceName dev) (resolveBrand dev man))).getD []) := by
    rw [← hm]
    exact mem_deviceVarFn_of_produces man dev cat b m v hprod _
  subst hcat
  subst hb
  subst hm
  obtain ⟨t₁, ht₁⟩ :=
    catExt_foldDevices man (processDevice man c₂ dev) d₂ _ _ _ _ hself
  obtain ⟨t₂, ht₂⟩ := catExt_foldMans fetch l₂ _ _ _ _ _ ht₁
  refine ⟨_, ht₂, ?_⟩
  exact List.mem_append_left _ (List.mem_append_left _ hmem)

/-! ## Idempotence of the catalog fold -/

theorem updateKey_updateKey {α : Type} (l : List (String × α)) (k : String) (f g : α → α) :
    updateKey (updateKey l k f) k g = updateKey l k fun x => g (f x) := by
  induction l with
  | nil => rfl
  | cons p t ih =>
    obtain ⟨k₀, v⟩ := p
    by_cases h : k₀ = k <;> simp [updateKey, h, ih]

theorem hasKey_upsertKey_self {α : Type} (l : List (String × α)) (k : String) (v : α)
    (f : α → α) : hasKey (upsertKey l k v f) k = true := by
  unfold hasKey
  rw [lookupKey_upsertKey_self]
  rfl

theorem ensureKey_of_hasKey {α : Type} (l : List (String × α)) (k : String) (v : α)
    (h : hasKey l k = true) : ensureKey l k v = l := by
  simp [ensureKey, h]

theorem upsertKey_upsertKey {α : Type} (l : List (String × α)) (k : String) (v : α)
    (f g : α → α) :
    upsertKey (upsertKey l k v f) k v g = upsertKey l k v fun x => g (f x) := by
  unfold upsertKey
  rw [ensureKey_of_hasKey _ _ _
      (show hasKey (updateKey (ensureKey l k v) k f) k = true from hasKey_upsertKey_self l k v f),
    updateKey_updateKey]

theorem updateModel_comp (c : Catalog) (cat b m : String) (f g : List String → List String) :
    updateModel (updateModel c cat b m f) cat b m g =
      updateModel c cat b m fun vs => g (f vs) := by
  unfold updateModel
  refine congrArg Catalog.mk ?_
  rw [upsertKey_upsertKey]
  refine congrArg (upsertKey c.categories cat ⟨[]⟩) ?_
  funext ce
  refine congrArg CategoryEntry.mk ?_
  rw [upsertKey_upsertKey]
  refine congrArg (upsertKey ce.brands b ⟨[]⟩) ?_
  funext be
  refine congrArg BrandEntry.mk ?_
  rw [upsertKey_upsertKey]

theorem processDevice_idem (man : String) (c : Catalog) (dev : MobileAPIDevice) :
    processDevice man (processDevice man c dev) dev = processDevice man c dev := by
  unfold processDevice
  rw [updateModel_comp]
  exact congrArg (updateModel c _ _ _) (funext fun vs => deviceVarFn_idem dev _ vs)

/-! ## Category keys are never removed -/

theorem isSome_categories_updateModel (c : Catalog) (cat b m : String)
    (f : List String → List String) (k : String)
    (h : (lookupKey c.categories k).isSome = true) :
    (lookupKey (updateModel c cat b m f).categories k).isSome = true := by
  unfold updateModel
  by_cases hk : k = cat
  · subst hk
    rw [lookupKey_upsertKey_self]
    rfl
  · rw [lookupKey_upsertKey_ne _ _ _ _ _ hk]
    exact h

theorem isSome_categories_processDevice (man : String) (c : Catalog) (dev : MobileAPIDevice)
    (k : String) (h : (lookupKey c.categories k).isSome = true) :
    (lookupKey (processDevice man c dev).categories k).isSome = true :=
  isSome_categories_updateModel c _ _ _ _ k h

theorem isSome_categories_foldDevices (man : String) (c : Catalog)
    (ds : List MobileAPIDevice) (k : String)
    (h : (lookupKey c.categories k).isSome = true) :
    (lookupKey (foldDevices man c ds).categories k).isSome = true := by
  induction ds generalizing c with
  | nil => simpa [foldDevices]
  | cons d t ih =>
    simpa [foldDevices] using
      ih (processDevice man c d) (isSome_categories_processDevice man c d k h)

theorem isSome_categories_stepCat (fetch : String → FetchResult) (c : Catalog) (man : String)
    (k : String) (h : (lookupKey c.categories k).isSome = true) :
    (lookupKey (stepCat fetch c man).categories k).isSome = true := by
  unfold stepCat
  split
  · split
    · exact h
    · exact isSome_categories_foldDevices man c _ k h
  · exact h

theorem isSome_categories_foldMans (fetch : String → FetchResult) (mans : List String)
    (c : Catalog) (k : String) (h : (lookupKey c.categories k).isSome = true) :
    (lookupKey (mans.foldl (stepCat fetch) c).categories k).isSome = true := by
  induction mans generalizing c with
  | nil => simpa
  | cons man t ih =>
    simpa using ih (stepCat fetch c man) (isSome_categories_stepCat fetch c man k h)

/-! ## Whitespace and trim lemmas -/

theorem trimR_eq_nil_iff (l : List Char) :
    trimR l = [] ↔ l.all Char.isWhitespace = true := by
  induction l with
  | nil => simp [trimR]
  | cons c t ih =>
    simp only [trimR, List.all_cons, Bool.and_eq_true]
    by_cases hc : c.isWhitespace
    · by_cases ht : (trimR t).isEmpty
      · simp [hc, ht, ih.mp (List.isEmpty_iff.mp ht)]
      · have hne : trimR t ≠ [] := fun h => ht (by simp [h])
        have hall : t.all Char.isWhitespace ≠ true := fun h => hne (ih.mpr h)
        simp [hc, ht, hne, hall]
    · simp [hc]

theorem dropWhile_all_iff (p : Char → Bool) (l : List Char) :
    (l.dropWhile p).all p = true ↔ l.all p = true := by
  induction l with
  | nil => simp
  | cons c t ih =>
    by_cases hc : p c
    · simpa [List.dropWhile_cons, hc] using ih
    · simp [List.dropWhile_cons, hc]

theorem trimC_eq_nil_iff (l : List Char) :
    trimC l = [] ↔ l.all Char.isWhitespace = true := by
  unfold trimC
  rw [trimR_eq_nil_iff, dropWhile_all_iff]

theorem hasNonWs_iff_trimC_ne_nil (l : List Char) :
    hasNonWs l = true ↔ trimC l ≠ [] := by
  rw [ne_eq, trimC_eq_nil_iff]
  unfold hasNonWs
  rw [← List.not_all_eq_any_not]
  simp

theorem dropWhile_idem (p : Char → Bool) (l : List Char) :
    (l.dropWhile p).dropWhile p = l.dropWhile p := by
  induction l with
  | nil => rfl
  | cons c t ih =>
    by_cases hc : p c
    · simpa [List.dropWhile_cons, hc] using ih
    · simp [List.dropWhile_cons, hc]

theorem trimR_trimR (l : List Char) : trimR (trimR l) = trimR l := by
  induction l with
  | nil => rfl
  | cons c t ih =>
    by_cases hcond : ((trimR t).isEmpty = true ∧ c.isWhitespace = true)
    · have h1 : trimR (c :: t) = [] := by
        simp only [trimR]
        exact if_pos hcond
      rw [h1]
      rfl
    · have h1 : trimR (c :: t) = c :: trimR t := by
        simp only [trimR]
        exact if_neg hcond
      rw [h1]
      have h2 : trimR (c :: trimR t) = c :: trimR (trimR t) := by
        simp only [trimR]
        rw [ih]
        exact if_neg hcond
      rw [h2, ih]

theorem dropWhile_trimR (l : List Char)
    (hl : l.dropWhile Char.isWhitespace = l) :
    (trimR l).dropWhile Char.isWhitespace = trimR l := by
  cases l with
  | nil => rfl
  | cons c t =>
    have hc : c.isWhitespace = false := by
      by_contra hcc
      have hc' : c.isWhitespace = true := by
        cases h : c.isWhitespace
        · exact absurd h hcc
        · rfl
      rw [List.dropWhile_cons_of_pos hc'] at hl
      have := congrArg List.length hl
      have hle : (t.dropWhile Char.isWhitespace).length ≤ t.length := by
        have := List.dropWhile_sublist (p := Char.isWhitespace) (l := t)
        exact this.length_le
      simp at this
      omega
    simp only [trimR, hc, Bool.false_eq_true, and_false, if_false]
    rw [List.dropWhile_cons_of_neg (by simp [hc])]

theorem trimC_trimC (l : List Char) : trimC (trimC l) = trimC l := by
  unfold trimC
  rw [dropWhile_trimR (l.dropWhile Char.isWhitespace) (dropWhile_idem _ l), trimR_trimR]

theorem hasNonWs_trimC (l : List Char) (h : trimC l ≠ []) : hasNonWs (trimC l) = true := by
  rw [hasNonWs_iff_trimC_ne_nil, trimC_trimC]
  exact h

/-! ## Non-empty variant lists under the non-blank-name hypothesis -/

theorem hasNonWs_fallback (d x : List Char) (h : hasNonWs d = true) :
    hasNonWs (if (trimC x).isEmpty then d else trimC x) = true := by
  split
  · exact h
  · next hemp => exact hasNonWs_trimC _ fun hn => hemp (by simp [hn])

theorem hasNonWs_extractModelName (d b : List Char) (h : hasNonWs d = true) :
    hasNonWs (extractModelName d b) = true := by
  simp only [extractModelName]
  exact hasNonWs_fallback d _ h

theorem strTrim_ne_empty (m rest : String) (h : hasNonWs m.data = true) :
    strTrim (m ++ rest) ≠ "" := by
  intro hs
  have hdata : trimC (m ++ rest).data = [] := congrArg String.data hs
  rw [String.data_append, trimC_eq_nil_iff, List.all_append, Bool.and_eq_true] at hdata
  have := (hasNonWs_iff_trimC_ne_nil m.data).mp h
  rw [ne_eq, trimC_eq_nil_iff] at this
  exact this hdata.1

theorem deviceVarFn_ne_nil (dev : MobileAPIDevice) (m : String)
    (h : hasNonWs m.data = true) (vs : List String) : deviceVarFn dev m vs ≠ [] := by
  unfold deviceVarFn
  split
  · have hv : strTrim (m ++ " " ++ jsOr dev.storage "") ≠ "" := by
      rw [String.append_assoc]
      exact strTrim_ne_empty m _ h
    exact List.ne_nil_of_mem (mem_pushNew_self vs _ hv)
  · next hsv =>
    cases hs : extractStorageVariants dev.storage with
    | nil => rw [hs] at hsv; simp at hsv
    | cons x t =>
      exact List.ne_nil_of_mem (mem_mergeVariants_of_mem _ vs x (List.mem_cons_self x t))

theorem nonEmptyInv_initCatalog : NonEmptyInv initCatalog := by
  intro cat b m vs h
  unfold lookupVariants initCatalog at h
  by_cases h1 : "phone" = cat <;> by_cases h2 : "tablet" = cat <;>
    by_cases h3 : "smartwatch" = cat <;> simp [lookupKey, h1, h2, h3] at h

theorem nonEmptyInv_processDevice (man : String) (c : Catalog) (dev : MobileAPIDevice)
    (hdev : hasNonWs (resolveDeviceName dev).data = true) (h : NonEmptyInv c) :
    NonEmptyInv (processDevice man c dev) := by
  intro cat b m vs hv
  unfold processDevice at hv
  rw [lookupVariants_updateModel] at hv
  split at hv
  · cases hv
    exact deviceVarFn_ne_nil dev _ (hasNonWs_extractModelName _ _ hdev) _
  · exact h cat b m vs hv

theorem nonEmptyInv_foldDevices (man : String) (ds : List MobileAPIDevice) :
    ∀ c : Catalog, (∀ dev ∈ ds, hasNonWs (resolveDeviceName dev).data = true) →
      NonEmptyInv c → NonEmptyInv (foldDevices man c ds) := by
  induction ds with
  | nil =>
    intro c _ h
    simpa [foldDevices]
  | cons d t ih =>
    intro c hds h
    have hd := hds d (by simp)
    have ht : ∀ dev ∈ t, hasNonWs (resolveDeviceName dev).data = true := fun dev hdev =>
      hds dev (by simp [hdev])
    simpa [foldDevices] using
      ih (processDevice man c d) ht (nonEmptyInv_processDevice man c d hd h)

theorem nonEmptyInv_stepCat (fetch : String → FetchResult) (c : Catalog) (man : String)
    (hfetch : ∀ ds dev, fetch man = FetchResult.ok ds → dev ∈ ds →
      hasNonWs (resolveDeviceName dev).data = true)
    (h : NonEmptyInv c) : NonEmptyInv (stepCat fetch c man) := by
  unfold stepCat
  split
  · next ds hds =>
    split
    · exact h
    · exact nonEmptyInv_foldDevices man ds c (fun dev hdev => hfetch ds dev hds hdev) h
  · exact h

theorem nonEmptyInv_foldMans (fetch : String → FetchResult) (mans : List String)
    (hfetch : ∀ man ds dev, fetch man = FetchResult.ok ds → dev ∈ ds →
      hasNonWs (resolveDeviceName dev).data = true) :
    ∀ c : Catalog, NonEmptyInv c → NonEmptyInv (mans.foldl (stepCat fetch) c) := by
  induction mans with
  | nil =>
    intro c h
    simpa
  | cons man t ih =>
    intro c h
    simpa using ih (stepCat fetch c man)
      (nonEmptyInv_stepCat fetch c man (fun ds dev => hfetch man ds dev) h)

/-! ## Equivalence of the structural and minimal-index token search -/

theorem tokAt_nil (toks : List (List Char)) (htoks : ∀ t ∈ toks, t ≠ []) :
    tokAt toks [] = false := by
  rw [Bool.eq_false_iff]
  intro h
  unfold tokAt at h
  rw [List.any_eq_true] at h
  obtain ⟨t, hmem, hp⟩ := h
  rw [Bool.and_eq_true] at hp
  have hpre := List.isPrefixOf_iff_prefix.mp hp.1
  have hnil : lowerL t = [] := List.prefix_nil.mp (by simpa [lowerL] using hpre)
  exact htoks t hmem (by simpa [lowerL] using hnil)

theorem findTok_eq_firstTokIdx (toks : List (List Char)) (htoks : ∀ t ∈ toks, t ≠ [])
    (s : List Char) : findTok toks s = firstTokIdx toks s := by
  induction s with
  | nil =>
    unfold findTok firstTokIdx
    simp only [tokAt_nil toks htoks, List.length_nil, List.drop_nil, Nat.zero_add]
    decide
  | cons c t ih =>
    unfold findTok firstTokIdx
    by_cases h0 : tokAt toks (c :: t)
    · rw [if_pos h0]
      have : (0 : Nat) :: (List.range (t.length + 1)).map Nat.succ =
          List.range (t.length + 1 + 1) := (List.range_succ_eq_map _).symm
      rw [show (c :: t).length = t.length + 1 from rfl, List.range_succ_eq_map]
      rw [List.find?_cons_of_pos _ (by simpa using h0)]
    · rw [if_neg h0]
      rw [show (c :: t).length = t.length + 1 from rfl, List.range_succ_eq_map]
      rw [List.find?_cons_of_neg _ (by simpa using h0)]
      rw [List.find?_map]
      rw [ih]
      unfold firstTokIdx
      rfl

theorem stripFrom_eq_stripFromFirst (toks : List (List Char)) (htoks : ∀ t ∈ toks, t ≠ [])
    (s : List Char) : stripFrom toks s = stripFromFirst toks s := by
  unfold stripFrom stripFromFirst
  rw [findTok_eq_firstTokIdx toks htoks]

theorem extractModelName_eq_firstOcc (d b : List Char) :
    extractModelName d b = extractModelNameFirstOcc d b := by
  simp only [extractModelName, extractModelNameFirstOcc]
  rw [stripFrom_eq_stripFromFirst storageToks (by decide),
    stripFrom_eq_stripFromFirst colorToks (by decide)]

/-! ## Categorisation equivalence -/

theorem categorize_eq_claim (n : String) : categorizeDeviceS n = categorizeClaim n := by
  unfold categorizeDeviceS categorizeDevice categorizeClaim ciContains
  rw [show lowerL "tablet".data = "tablet".data from by decide,
    show lowerL "ipad".data = "ipad".data from by decide,
    show lowerL "tab".data = "tab".data from by decide,
    show lowerL "watch".data = "watch".data from by decide,
    show lowerL "band".data = "band".data from by decide]

/-! ## Brand resolution equivalence -/

theorem resolveBrand_eq_firstTruthy (dev : MobileAPIDevice) (man : String) :
    resolveBrand dev man = firstTruthy [dev.brand, dev.manufacturer_name, dev.brand_name] man := by
  unfold resolveBrand
  cases dev.brand <;> cases dev.manufacturer_name <;> cases dev.brand_name <;> rfl

/-! ## Upload retry loop characterisation -/

theorem uploadResult_eq (attempts : Nat → Option String) :
    uploadResult attempts =
      match attempts 0 with
      | none => (none, 1, [])
      | some _ =>
        match attempts 1 with
        | none => (none, 2, [1000])
        | some _ =>
          match attempts 2 with
          | none => (none, 3, [1000, 1000])
          | some _ =>
            match attempts 3 with
            | none => (none, 4, [1000, 1000, 1000])
            | some e3 => (some e3, 4, [1000, 1000, 1000]) := by
  rcases h0 : attempts 0 with _ | e0 <;> rcases h1 : attempts 1 with _ | e1 <;>
    rcases h2 : attempts 2 with _ | e2 <;> rcases h3 : attempts 3 with _ | e3 <;>
      simp [uploadResult, uploadGo, maxRetries, h0, h1, h2, h3]

theorem uploadResult_fst_none (attempts : Nat → Option String)
    (h : ∃ i, i ≤ maxRetries ∧ attempts i = none) : (uploadResult attempts).1 = none := by
  obtain ⟨i, hi, hnone⟩ := h
  rw [uploadResult_eq]
  rcases h0 : attempts 0 with _ | e0 <;> rcases h1 : attempts 1 with _ | e1 <;>
    rcases h2 : attempts 2 with _ | e2 <;> rcases h3 : attempts 3 with _ | e3 <;> simp
  unfold maxRetries at hi
  interval_cases i <;> simp_all

theorem uploadResult_fst_some (attempts : Nat → Option String) (errs : Nat → String)
    (h : ∀ i, i ≤ maxRetries → attempts i = some (errs i)) :
    (uploadResult attempts).1 = some (errs 3) := by
  rw [uploadResult_eq]
  rw [h 0 (by simp [maxRetries]), h 1 (by simp [maxRetries]), h 2 (by simp [maxRetries]),
    h 3 (by simp [maxRetries])]

theorem uploadResult_count_delays (attempts : Nat → Option String) :
    1 ≤ (uploadResult attempts).2.1 ∧ (uploadResult attempts).2.1 ≤ 4 ∧
      (uploadResult attempts).2.2 =
        List.replicate ((uploadResult attempts).2.1 - 1) 1000 := by
  rw [uploadResult_eq]
  rcases h0 : attempts 0 with _ | e0 <;> rcases h1 : attempts 1 with _ | e1 <;>
    rcases h2 : attempts 2 with _ | e2 <;> rcases h3 : attempts 3 with _ | e3 <;>
      simp [List.replicate]

/-! ## Serve pipeline lemmas -/

theorem serveRun_ok (mans : List String) (fetch : String → FetchResult)
    (attempts : Nat → Option String) (hne : mans ≠ []) :
    serveRun (ManufacturersResult.ok mans) fetch attempts =
      match (uploadResult attempts).1 with
      | none => ServeOutcome.success (processManufacturers fetch (mans.take maxManufacturers)).1
      | some e => ServeOutcome.failure (uploadErrorMsg e) := by
  unfold serveRun
  simp [List.isEmpty_iff, hne]

theorem serveRun_success_of_upload_ok (mans : List String) (fetch : String → FetchResult)
    (attempts : Nat → Option String) (hne : mans ≠ [])
    (h : ∃ i, i ≤ maxRetries ∧ attempts i = none) :
    serveRun (ManufacturersResult.ok mans) fetch attempts =
      ServeOutcome.success (processManufacturers fetch (mans.take maxManufacturers)).1 := by
  rw [serveRun_ok mans fetch attempts hne, uploadResult_fst_none attempts h]

theorem serveRun_failure_of_upload_exhausted (mans : List String)
    (fetch : String → FetchResult) (attempts : Nat → Option String) (errs : Nat → String)
    (hne : mans ≠ []) (h : ∀ i, i ≤ maxRetries → attempts i = some (errs i)) :
    serveRun (ManufacturersResult.ok mans) fetch attempts =
      ServeOutcome.failure (uploadErrorMsg (errs 3)) := by
  rw [serveRun_ok mans fetch attempts hne, uploadResult_fst_some attempts errs h]

/-! ## Claim theorems -/

/-- C1 counterexample: the claim says a storage token is stripped only
when it stands at the end of the string. On the device name
"Phone 128GB Pro" no storage or color token is trailing, so the claim
predicts the unchanged name, but the code strips from the mid-string
token occurrence and returns "Phone". -/
theorem C1_counterexample :
    extractModelNameS "Phone 128GB Pro" "X" = "Phone" ∧
    extractModelNameTrailingS "Phone 128GB Pro" "X" = "Phone 128GB Pro" ∧
    ("Phone" : String) ≠ "Phone 128GB Pro" := by
  refine ⟨by decide, by decide, by decide⟩

/-- C1 (amended): extractModelName strips a case-insensitive leading
brand prefix when present, then deletes everything from the first
case-insensitive occurrence of a storage-size token (with the whitespace
run immediately before it) to the end, then likewise for the first
color-token occurrence, which may lie anywhere in the string, even inside
a word; it trims and falls back to the device name when the result is
empty. The Samsung example of the claim holds. -/
theorem C1_extractModelName_first_occurrence :
    (∀ deviceName brandName : String,
      extractModelNameS deviceName brandName = extractModelNameFirstOccS deviceName brandName) ∧
    extractModelNameS "Samsung Galaxy S21 128GB Black" "Samsung" = "Galaxy S21" := by
  constructor
  · intro d b
    unfold extractModelNameS extractModelNameFirstOccS
    rw [extractModelName_eq_firstOcc]
  · decide

/-- C2: in every catalog built by the manufacturer loop, each variant
list is duplicate-free; extending the input stream only appends to an
existing variant list (first-seen order is preserved); and a variant
produced by any processed device occurs exactly once in its model entry. -/
theorem C2_variant_dedup :
    (∀ fetch (mans : List String) cat b m vs,
      lookupVariants (processManufacturers fetch mans).1 cat b m = some vs → vs.Nodup) ∧
    (∀ fetch (mans more : List String) cat b m vs,
      lookupVariants (processManufacturers fetch mans).1 cat b m = some vs →
      ∃ t, lookupVariants (processManufacturers fetch (mans ++ more)).1 cat b m =
        some (vs ++ t)) ∧
    (∀ fetch (mans : List String) man ds dev cat b m v,
      man ∈ mans → fetch man = FetchResult.ok ds → dev ∈ ds →
      producesVariant man dev cat b m v →
      ∃ vs, lookupVariants (processManufacturers fetch mans).1 cat b m = some vs ∧
        vs.count v = 1) := by
  refine ⟨?_, ?_, ?_⟩
  · intro fetch mans cat b m vs h
    rw [fst_processManufacturers] at h
    exact nodupInv_buildCatalog fetch mans cat b m vs h
  · intro fetch mans more cat b m vs h
    rw [fst_processManufacturers] at h
    rw [fst_processManufacturers]
    unfold buildCatalog at h ⊢
    rw [List.foldl_append]
    exact catExt_foldMans fetch more _ cat b m vs h
  · intro fetch mans man ds dev cat b m v hman hfetch hdev hprod
    rw [fst_processManufacturers]
    obtain ⟨vs, hvs, hv⟩ :=
      mem_buildCatalog_of_produces fetch mans man ds dev cat b m v hman hfetch hdev hprod
    exact ⟨vs, hvs, List.count_eq_one_of_mem (nodupInv_buildCatalog fetch mans cat b m vs hvs) hv⟩

/-- C2 witness: the same device folded twice yields its storage variant
exactly once. -/
theorem C2_variant_dedup_witness :
    ∃ vs, lookupVariants (processManufacturers
        (fun _ => FetchResult.ok [⟨some "Pixel 8", none, none, none, some "128GB"⟩,
          ⟨some "Pixel 8", none, none, none, some "128GB"⟩]) ["M"]).1
      "phone" "M" "Pixel 8" = some vs ∧ vs.count "128GB" = 1 := by
  refine C2_variant_dedup.2.2 _ ["M"] "M"
    [⟨some "Pixel 8", none, none, none, some "128GB"⟩,
      ⟨some "Pixel 8", none, none, none, some "128GB"⟩]
    ⟨some "Pixel 8", none, none, none, some "128GB"⟩ "phone" "M" "Pixel 8" "128GB"
    (by decide) rfl (by decide) (by decide)

/-- C3: the upload step performs one initial attempt and at most three
retries (between one and four attempts in total), sleeps 1000 ms before
each retry and before nothing else, is configured with upsert semantics;
with manufacturers present, a successful attempt within the retry budget
makes the run reach Success, and four failing attempts terminate the
invocation in Failure with the last error embedded in the message. -/
theorem C3_upload_retry :
    uploadOptions.upsert = true ∧
    (∀ attempts, 1 ≤ (uploadResult attempts).2.1 ∧ (uploadResult attempts).2.1 ≤ 4) ∧
    (∀ attempts, (uploadResult attempts).2.2 =
      List.replicate ((uploadResult attempts).2.1 - 1) 1000) ∧
    (∀ (mans : List String) fetch attempts, mans ≠ [] →
      (∃ i, i ≤ maxRetries ∧ attempts i = none) →
      ∃ c, serveRun (ManufacturersResult.ok mans) fetch attempts = ServeOutcome.success c) ∧
    (∀ (mans : List String) fetch attempts (errs : Nat → String), mans ≠ [] →
      (∀ i, i ≤ maxRetries → attempts i = some (errs i)) →
      serveRun (ManufacturersResult.ok mans) fetch attempts =
        ServeOutcome.failure
          ("Failed to upload catalog to Storage after 3 retries: " ++ errs 3)) := by
  refine ⟨rfl, ?_, ?_, ?_, ?_⟩
  · intro attempts
    exact ⟨(uploadResult_count_delays attempts).1, (uploadResult_count_delays attempts).2.1⟩
  · intro attempts
    exact (uploadResult_count_delays attempts).2.2
  · intro mans fetch attempts hne h
    exact ⟨_, serveRun_success_of_upload_ok mans fetch attempts hne h⟩
  · intro mans fetch attempts errs hne h
    rw [serveRun_failure_of_upload_exhausted mans fetch attempts errs hne h]
    exact congrArg ServeOutcome.failure
      (congrArg (fun s => s ++ errs 3)
        ((by decide :
          ("Failed to upload catalog to Storage after " ++ toString maxRetries ++
            " retries: ") = "Failed to upload catalog to Storage after 3 retries: ")))

/-- C3 witness: with one manufacturer, an always-succeeding upload gives
Success and an always-failing upload gives the Failure message embedding
the last error. -/
theorem C3_upload_retry_witness :
    (∃ c, serveRun (ManufacturersResult.ok ["M"]) (fun _ => FetchResult.nonArray)
      (fun _ => none) = ServeOutcome.success c) ∧
    serveRun (ManufacturersResult.ok ["M"]) (fun _ => FetchResult.nonArray)
        (fun _ => some "boom") =
      ServeOutcome.failure
        ("Failed to upload catalog to Storage after 3 retries: " ++ "boom") := by
  constructor
  · exact C3_upload_retry.2.2.2.1 ["M"] _ _ (by decide) ⟨0, by decide, rfl⟩
  · exact C3_upload_retry.2.2.2.2 ["M"] _ _ (fun _ => "boom") (by decide) (fun i _ => rfl)

/-- C4: a manufacturer whose device fetch throws, returns a non-array, or
returns an empty array contributes nothing to the catalog, appends one
warning to the log, and the loop continues; with a working upload the run
reaches Success regardless of such failures; in particular with
manufacturers [A, B] where the fetch for A throws, the run succeeds and
the uploaded catalog is exactly the fold of the devices of B. -/
theorem C4_manufacturer_failure_nonfatal :
    (∀ fetch (s : Catalog × List String) man e, fetch man = FetchResult.thrown e →
      stepManufacturer fetch s man = (s.1, s.2 ++ [warnFetchFailed man e])) ∧
    (∀ fetch (s : Catalog × List String) man, fetch man = FetchResult.ok [] →
      stepManufacturer fetch s man = (s.1, s.2 ++ [warnNoDevices man])) ∧
    (∀ fetch (s : Catalog × List String) man, fetch man = FetchResult.nonArray →
      stepManufacturer fetch s man = (s.1, s.2 ++ [warnNoDevices man])) ∧
    (∀ (mans : List String) fetch attempts, mans ≠ [] → attempts 0 = none →
      ∃ c, serveRun (ManufacturersResult.ok mans) fetch attempts = ServeOutcome.success c) ∧
    (∀ fetch e (d : MobileAPIDevice), fetch "A" = FetchResult.thrown e →
      fetch "B" = FetchResult.ok [d] →
      serveRun (ManufacturersResult.ok ["A", "B"]) fetch (fun _ => none) =
        ServeOutcome.success (foldDevices "B" initCatalog [d])) := by
  refine ⟨?_, ?_, ?_, ?_, ?_⟩
  · intro fetch s man e h
    simp [stepManufacturer, h]
  · intro fetch s man h
    simp [stepManufacturer, h]
  · intro fetch s man h
    simp [stepManufacturer, h]
  · intro mans fetch attempts hne h0
    exact ⟨_, serveRun_success_of_upload_ok mans fetch attempts hne ⟨0, by decide, h0⟩⟩
  · intro fetch e d hA hB
    rw [serveRun_success_of_upload_ok _ _ _ (by simp) ⟨0, by decide, rfl⟩]
    refine congrArg ServeOutcome.success ?_
    rw [show (["A", "B"].take maxManufacturers) = ["A", "B"] from rfl,
      fst_processManufacturers]
    unfold buildCatalog
    simp only [List.foldl_cons, List.foldl_nil]
    rw [show stepCat fetch initCatalog "A" = initCatalog from by unfold stepCat; rw [hA]]
    unfold stepCat
    rw [hB]
    simp

/-- C4 witness: concrete run with a throwing manufacturer A and a working
manufacturer B. -/
theorem C4_manufacturer_failure_nonfatal_witness :
    serveRun (ManufacturersResult.ok ["A", "B"])
        (fun man => if man = "A" then FetchResult.thrown "boom"
          else FetchResult.ok [⟨some "Pixel 8", none, none, none, some "128GB"⟩])
        (fun _ => none) =
      ServeOutcome.success
        (foldDevices "B" initCatalog [⟨some "Pixel 8", none, none, none, some "128GB"⟩]) :=
  C4_manufacturer_failure_nonfatal.2.2.2.2 _ "boom" _ (by decide) (by decide)

/-- C5 counterexample: a device whose resolved name is the blank string
" " creates the model key " " with an empty variant list, so a model key
can exist with no variants. -/
theorem C5_counterexample :
    lookupVariants (processDevice "Acme" initCatalog ⟨some " ", none, none, none, none⟩)
      "phone" "Acme" " " = some [] := by
  decide

/-- C5 (amended): provided every fetched device has a resolved device
name containing a non-whitespace character, every model key present in
the built catalog has a non-empty variants list. -/
theorem C5_nonempty_variants_amended :
    ∀ fetch (mans : List String),
      (∀ man ds dev, fetch man = FetchResult.ok ds → dev ∈ ds →
        hasNonWs (resolveDeviceName dev).data = true) →
      ∀ cat b m vs, lookupVariants (processManufacturers fetch mans).1 cat b m = some vs →
        vs ≠ [] := by
  intro fetch mans hf cat b m vs h
  rw [fst_processManufacturers] at h
  exact nonEmptyInv_foldMans fetch mans hf initCatalog nonEmptyInv_initCatalog cat b m vs h

/-- C5 witness: a concrete run in which the only model entry has the
non-empty variant list of its storage token. -/
theorem C5_nonempty_variants_amended_witness :
    lookupVariants (processManufacturers
        (fun _ => FetchResult.ok [⟨some "Pixel 8", none, none, none, some "128GB"⟩]) ["M"]).1
      "phone" "M" "Pixel 8" = some ["128GB"] ∧
    (["128GB"] : List String) ≠ [] := by
  refine ⟨by decide, ?_⟩
  refine C5_nonempty_variants_amended
    (fun _ => FetchResult.ok [⟨some "Pixel 8", none, none, none, some "128GB"⟩]) ["M"] ?_
    "phone" "M" "Pixel 8" ["128GB"] (by decide)
  intro man ds dev hds hdev
  injection hds with h'
  subst h'
  rw [List.mem_singleton] at hdev
  subst hdev
  decide

/-- C6: folding the same device (hence the same normalized tuple) twice
yields the same catalog as folding it once; creating an already-present
key with ensureKey is a no-op; re-appending an already-present variant is
a no-op. -/
theorem C6_idempotent_fold :
    (∀ man c dev, processDevice man (processDevice man c dev) dev = processDevice man c dev) ∧
    (∀ (l : List (String × CategoryEntry)) k v, hasKey l k = true → ensureKey l k v = l) ∧
    (∀ (vs : List String) v, v ∈ vs → addVariant vs v = vs) := by
  refine ⟨processDevice_idem, ?_, ?_⟩
  · intro l k v h
    exact ensureKey_of_hasKey l k v h
  · intro vs v h
    simp [addVariant, h]

/-- C6 witness at a concrete device, key and variant. -/
theorem C6_idempotent_fold_witness :
    processDevice "M" (processDevice "M" initCatalog
        ⟨some "Pixel 8", none, none, none, some "128GB"⟩)
        ⟨some "Pixel 8", none, none, none, some "128GB"⟩ =
      processDevice "M" initCatalog ⟨some "Pixel 8", none, none, none, some "128GB"⟩ ∧
    ensureKey [("phone", CategoryEntry.mk [])] "phone" (CategoryEntry.mk []) =
      [("phone", CategoryEntry.mk [])] ∧
    addVariant ["128GB"] "128GB" = ["128GB"] :=
  ⟨C6_idempotent_fold.1 "M" initCatalog _,
    C6_idempotent_fold.2.1 _ "phone" _ (by decide),
    C6_idempotent_fold.2.2 ["128GB"] "128GB" (by decide)⟩

/-- C7: categorizeDevice implements the case-insensitive substring rule
of the specification with the tablet check before the watch check before
the phone default, and the three cited examples hold. -/
theorem C7_categorize :
    (∀ n : String, categorizeDeviceS n = categorizeClaim n) ∧
    categorizeDeviceS "iPad Pro" = "tablet" ∧
    categorizeDeviceS "Galaxy Watch 5" = "smartwatch" ∧
    categorizeDeviceS "iPhone 15" = "phone" :=
  ⟨categorize_eq_claim, by decide, by decide, by decide⟩

/-- C8 counterexample: a device with a defined but empty nested brand
name gets the manufacturer-name field, not the first defined candidate,
so resolution is first-truthy rather than first-defined. -/
theorem C8_counterexample :
    resolveBrand ⟨none, some "", some "Acme", none, none⟩ "M" = "Acme" ∧
    claimBrand ⟨none, some "", some "Acme", none, none⟩ "M" = "" ∧
    ("Acme" : String) ≠ "" :=
  ⟨by decide, by decide, by decide⟩

/-- C8 (amended): the brand assigned to a device is the first defined and
non-empty of the nested brand name, the manufacturer-name field and the
flat brand-name field, with the currently iterated manufacturer as last
resort. -/
theorem C8_brand_resolution_amended :
    ∀ (dev : MobileAPIDevice) (man : String),
      resolveBrand dev man =
        firstTruthy [dev.brand, dev.manufacturer_name, dev.brand_name] man :=
  resolveBrand_eq_firstTruthy

/-- C9: the API-route reader serves the storage catalog with a 3600 s
cache directive and the storage source marker on success; on a storage
error result or exception it serves the local snapshot with a 300 s cache
directive (strictly shorter) and the fallback marker; and when the local
read also fails it returns a 500 whose body names both failed sources. -/
theorem C9_reader_fallback :
    (∀ cat loc, deviceCatalogGET (StorageOutcome.ok cat) loc =
      ⟨200, cat, some 3600, some "supabase-storage"⟩) ∧
    (∀ msg cat, deviceCatalogGET (StorageOutcome.errRes msg) (LocalOutcome.ok cat) =
      ⟨200, cat, some 300, some "local-fallback"⟩) ∧
    (∀ msg cat, deviceCatalogGET (StorageOutcome.exn msg) (LocalOutcome.ok cat) =
      ⟨200, cat, some 300, some "local-fallback"⟩) ∧
    (300 : Nat) < 3600 ∧
    (∀ msg e, deviceCatalogGET (StorageOutcome.errRes msg) (LocalOutcome.exn e) =
      ⟨500, bothFailedBody, none, none⟩) ∧
    (∀ msg e, deviceCatalogGET (StorageOutcome.exn msg) (LocalOutcome.exn e) =
      ⟨500, bothFailedBody, none, none⟩) :=
  ⟨fun _ _ => rfl, fun _ _ => rfl, fun _ _ => rfl, by decide, fun _ _ => rfl, fun _ _ => rfl⟩

/-- C10: the catalog is initialized with the three category keys phone,
tablet and smartwatch carrying empty brand mappings, and after any
manufacturer loop all three keys are still present. -/
theorem C10_categories_initialized :
    initCatalog.categories =
      [("phone", CategoryEntry.mk []), ("tablet", CategoryEntry.mk []),
        ("smartwatch", CategoryEntry.mk [])] ∧
    ∀ fetch (mans : List String),
      (lookupKey (processManufacturers fetch mans).1.categories "phone").isSome = true ∧
      (lookupKey (processManufacturers fetch mans).1.categories "tablet").isSome = true ∧
      (lookupKey (processManufacturers fetch mans).1.categories "smartwatch").isSome = true := by
  refine ⟨rfl, ?_⟩
  intro fetch mans
  refine ⟨?_, ?_, ?_⟩ <;>
    · rw [fst_processManufacturers]
      exact isSome_categories_foldMans fetch mans initCatalog _ (by decide)

end DeviceCatalog
